import Mathlib

/-!
Verification of the node-attachment tracker in `src/useRefCallback.ts`.

The tracker keeps a `Map<string, VoidFunction>` (`cleanupsMap`) from node
identifier to pending cleanup action and exposes one callback:

  (node, nodeId = 'single') =>
    if (node) {
      const cleanupCallback = effect(node);
      if (typeof cleanupCallback === 'function')
        cleanupsMap.current.set(nodeId, cleanupCallback);
    } else {
      const currNodeCleanup = cleanupsMap.current.get(nodeId);
      if (currNodeCleanup) {
        currNodeCleanup();
        cleanupsMap.current.delete(nodeId);
      }
    }

Shallow embedding: nodes are `Nat`; the absence marker (`null`) is `none`;
exception values are `Nat`.  A caller-supplied cleanup closure is modelled
by a `Cleanup` record carrying a label (its identity, used in the event
trace) and whether invoking it raises.  The caller-supplied effect is a
function from a node to an `EffOutcome`: either it raises, or it returns an
optional cleanup (`none` models a `void` return that fails the
`typeof === 'function'` test).  Observable behaviour is an event trace
(which effect and cleanup invocations happened, in order) plus the final
registry; a call result also records the exception, if any, that the call
propagated to the host.
-/

set_option autoImplicit false

/-- A cleanup closure: `label` is its JavaScript function identity, and
`throwsExc = some e` means invoking it raises the exception `e`. -/
structure Cleanup where
  label : Nat
  throwsExc : Option Nat
deriving DecidableEq, Repr

/-- Outcome of calling the caller-supplied effect on a node: it either
raises an exception or returns an optional cleanup closure. -/
inductive EffOutcome where
  | throws (e : Nat)
  | ret (cleanup : Option Cleanup)
deriving DecidableEq, Repr

/-- Observable invocation events: the effect being called on a node, or a
stored cleanup closure being called. -/
inductive Event where
  | effectCall (node : Nat)
  | cleanupCall (label : Nat)
deriving DecidableEq, Repr

/-- The registry, modelling the JavaScript `Map<string, VoidFunction>` as an
association list with unique keys. -/
abbrev Registry := List (String × Cleanup)

/-- `Map.prototype.get`: first entry with the given key, if any. -/
def mapGet : Registry → String → Option Cleanup
  | [], _ => none
  | (k, v) :: rest, key => if k = key then some v else mapGet rest key

/-- `Map.prototype.set`: replace the entry with the given key in place, or
append a new entry if the key is absent. -/
def mapSet : Registry → String → Cleanup → Registry
  | [], key, v => [(key, v)]
  | (k, w) :: rest, key, v =>
      if k = key then (key, v) :: rest else (k, w) :: mapSet rest key v

/-- `Map.prototype.delete`: remove the entry with the given key. -/
def mapDelete : Registry → String → Registry
  | [], _ => []
  | (k, w) :: rest, key => if k = key then rest else (k, w) :: mapDelete rest key

/-- A JavaScript `Map` never holds two entries with the same key. -/
def keysNodup (m : Registry) : Prop := (m.map Prod.fst).Nodup

instance (m : Registry) : Decidable (keysNodup m) := by
  unfold keysNodup; infer_instance

/-- State of one tracker instance: the cleanup registry together with the
trace of effect/cleanup invocations observed so far. -/
structure TrackerState where
  registry : Registry
  trace : List Event
deriving DecidableEq, Repr

/-- The tracker state at construction: empty registry, nothing invoked. -/
def trackerInit : TrackerState := { registry := [], trace := [] }

/-- Result of one call of the tracker callback: the state afterwards, and
the exception the call propagated to the host (`none` = returned
normally). -/
structure CallResult where
  state : TrackerState
  exc : Option Nat
deriving DecidableEq, Repr

/-- The callback returned by `useRefCallback`, acting on an explicit state.
Mirrors the body of the arrow function passed to `useCallback` in
`src/useRefCallback.ts`, including the `nodeId = 'single'` default. -/
def attach (effect : Nat → EffOutcome) (s : TrackerState) (node : Option Nat)
    (nodeId : String := "single") : CallResult :=
  match node with
  | some n =>
      let s1 : TrackerState := { s with trace := s.trace ++ [Event.effectCall n] }
      match effect n with
      | EffOutcome.throws e => { state := s1, exc := some e }
      | EffOutcome.ret (some c) =>
          { state := { s1 with registry := mapSet s1.registry nodeId c }, exc := none }
      | EffOutcome.ret none => { state := s1, exc := none }
  | none =>
      match mapGet s.registry nodeId with
      | some c =>
          let s1 : TrackerState := { s with trace := s.trace ++ [Event.cleanupCall c.label] }
          match c.throwsExc with
          | some e => { state := s1, exc := some e }
          | none =>
              { state := { s1 with registry := mapDelete s1.registry nodeId }, exc := none }
      | none => { state := s, exc := none }

/-- One host-issued call: the node (or the absence marker) and the
identifier passed. -/
abbrev Call := Option Nat × String

/-- Run a sequence of host-issued calls, threading the state.  A raised
exception propagates to the host (whose error handling is out of scope);
the host then carries on with the remaining commits. -/
def runCalls (effect : Nat → EffOutcome) (s : TrackerState) : List Call → TrackerState
  | [] => s
  | (node, nodeId) :: rest => runCalls effect (attach effect s node nodeId).state rest

/-- A call that stores a cleanup under `key`: a node attach under `key`
whose effect returns a callable action. -/
def isStore (effect : Nat → EffOutcome) (key : String) : Call → Bool
  | (some n, nodeId) =>
      nodeId = key &&
        match effect n with
        | EffOutcome.ret (some _) => true
        | _ => false
  | (none, _) => false

/-- A detach call under `key`. -/
def isDetach (key : String) : Call → Bool
  | (none, nodeId) => nodeId = key
  | (some _, _) => false

/-- A node attach under `key` (regardless of what the effect returns). -/
def isNodeAttach (key : String) : Call → Bool
  | (some _, nodeId) => nodeId = key
  | (none, _) => false

/-- Claim C1 as stated by the spec, for a given effect, call sequence and
identifier: a registry entry exists for the identifier iff the effect
returned a cleanup at the most recent attach of a node under it and no
detach under it has happened since (i.e. that cleanup has not yet been
invoked). -/
def claimC1 (effect : Nat → EffOutcome) (cs : List Call) (key : String) : Prop :=
  ((mapGet (runCalls effect trackerInit cs).registry key).isSome = true) ↔
    (∃ i : Fin cs.length,
      isNodeAttach key (cs.get i) = true ∧
      isStore effect key (cs.get i) = true ∧
      ∀ j : Fin cs.length, i < j →
        isNodeAttach key (cs.get j) = false ∧ isDetach key (cs.get j) = false)

instance (effect : Nat → EffOutcome) (cs : List Call) (key : String) :
    Decidable (claimC1 effect cs key) := by
  unfold claimC1; infer_instance

/-- No detach call under `key` occurs in the sequence. -/
def noDetach (key : String) (cs : List Call) : Prop :=
  ∀ j : Fin cs.length, isDetach key (cs.get j) = false

/-- The amended registry condition: some call of the sequence stores a
cleanup under `key` and no detach call under `key` comes after it. -/
def entryCond (effect : Nat → EffOutcome) (key : String) (cs : List Call) : Prop :=
  ∃ i : Fin cs.length, isStore effect key (cs.get i) = true ∧
    ∀ j : Fin cs.length, i < j → isDetach key (cs.get j) = false

/-- A cleanup label occurring nowhere in a state: no registry entry holds a
closure with that identity and no invocation of it has been traced. -/
def labelFree (lab : Nat) (s : TrackerState) : Prop :=
  (∀ p ∈ s.registry, (Prod.snd p).label ≠ lab) ∧ Event.cleanupCall lab ∉ s.trace

/-- Modelled from the spec: a dependency-list element, compared by the host
framework with per-element identity comparison.  The attachment effect
reference is itself such an element (the source passes `[effect, ...deps]`
to `useCallback`). -/
abbrev Dep := Nat

/-- Modelled from the spec: the host framework's memo cell for
`useCallback` — the dependency list seen at the previous render and the
identity of the callback handed out then. -/
structure MemoCell where
  deps : List Dep
  cbId : Nat
deriving DecidableEq, Repr

/-- Modelled from the spec: the host framework's dependency comparison —
dependency lists are the same when they agree element by element (per the
host's identity comparison on each element). -/
def depsEqual (a b : List Dep) : Bool := a = b

/-- Modelled from the spec: one render's `useCallback` step.  When the new
dependency list equals the previous one the memoised callback is reused;
otherwise a fresh callback identity is handed out. -/
def useCallbackRender (prev : MemoCell) (newDeps : List Dep) (freshId : Nat) : MemoCell :=
  if depsEqual prev.deps newDeps then prev else { deps := newDeps, cbId := freshId }

/-- The dependency list `useRefCallback` passes to `useCallback`:
`[effect, ...deps]`. -/
def useRefCallbackDeps (effectRef : Dep) (deps : List Dep) : List Dep :=
  effectRef :: deps

/- Concrete objects used by the counterexample and the witnesses. -/

/-- A cleanup closure that returns normally (label 10). -/
def cNo : Cleanup := { label := 10, throwsExc := none }

/-- A cleanup closure that raises exception 7 (label 11). -/
def cBoom : Cleanup := { label := 11, throwsExc := some 7 }

/-- A cleanup closure that returns normally (label 50). -/
def cOldW : Cleanup := { label := 50, throwsExc := none }

/-- An effect returning the cleanup `cNo` on every node. -/
def effStore : Nat → EffOutcome := fun _ => EffOutcome.ret (some cNo)

/-- An effect returning no callable action on any node. -/
def effVoid : Nat → EffOutcome := fun _ => EffOutcome.ret none

/-- An effect returning a cleanup on node 0 and nothing on other nodes. -/
def effMix : Nat → EffOutcome :=
  fun n => if n = 0 then EffOutcome.ret (some cNo) else EffOutcome.ret none

/-- An effect that raises exception 5 on every node. -/
def effRaise : Nat → EffOutcome := fun _ => EffOutcome.throws 5

/-- A state whose registry holds the non-throwing cleanup `cOldW` under
identifier `"k"`. -/
def sOldW : TrackerState := { registry := [("k", cOldW)], trace := [] }

/-- A state whose registry holds the throwing cleanup `cBoom` under
identifier `"k"`. -/
def sBoomW : TrackerState := { registry := [("k", cBoom)], trace := [] }

/-- The single-store call sequence used by the invariant witness. -/
def csW1 : List Call := [(some 0, "k")]

/-- The call sequence refuting claim C1 as stated: a cleanup-storing attach
under `"k"` followed by an attach under `"k"` whose effect returns no
callable action. -/
def csC1 : List Call := [(some 0, "k"), (some 1, "k")]

/-- A previous-render memo cell: effect reference 1, one dependency 2,
callback identity 0. -/
def mcPrev : MemoCell := { deps := [1, 2], cbId := 0 }

/- Lemmas about the JavaScript-Map model. -/

theorem mapGet_mapSet_self (m : Registry) (k : String) (v : Cleanup) :
    mapGet (mapSet m k v) k = some v := by
  induction m with
  | nil => simp [mapSet, mapGet]
  | cons p rest ih =>
      obtain ⟨k1, w⟩ := p
      by_cases h : k1 = k <;> simp [mapSet, mapGet, h, ih]

theorem mapGet_mapSet_ne (m : Registry) (k k1 : String) (v : Cleanup) (h : k1 ≠ k) :
    mapGet (mapSet m k v) k1 = mapGet m k1 := by
  induction m with
  | nil => simp [mapSet, mapGet, Ne.symm h]
  | cons p rest ih =>
      obtain ⟨k2, w⟩ := p
      by_cases h2 : k2 = k
      · subst h2; simp [mapSet, mapGet, h, Ne.symm h]
      · simp [mapSet, mapGet, h2]
        by_cases h3 : k2 = k1 <;> simp [h3, ih]

theorem mapDelete_sublist (m : Registry) (k : String) : (mapDelete m k).Sublist m := by
  induction m with
  | nil => simp [mapDelete]
  | cons p rest ih =>
      obtain ⟨k1, w⟩ := p
      by_cases h : k1 = k
      · simp [mapDelete, h]
      · simpa [mapDelete, h] using ih.cons₂ (k1, w)

theorem mem_mapDelete (m : Registry) (k : String) (p : String × Cleanup)
    (h : p ∈ mapDelete m k) : p ∈ m :=
  (mapDelete_sublist m k).mem h

theorem keysNodup_mapDelete (m : Registry) (k : String) (h : keysNodup m) :
    keysNodup (mapDelete m k) :=
  List.Nodup.sublist (List.Sublist.map Prod.fst (mapDelete_sublist m k)) h

theorem mem_mapSet (m : Registry) (k : String) (v : Cleanup) (p : String × Cleanup)
    (h : p ∈ mapSet m k v) : p = (k, v) ∨ p ∈ m := by
  induction m with
  | nil => simpa [mapSet] using h
  | cons q rest ih =>
      obtain ⟨k1, w⟩ := q
      by_cases h1 : k1 = k
      · simp [mapSet, h1] at h
        rcases h with h | h
        · exact Or.inl h
        · exact Or.inr (List.mem_cons_of_mem _ h)
      · simp [mapSet, h1] at h
        rcases h with h | h
        · exact Or.inr (by simp [h])
        · rcases ih h with h2 | h2
          · exact Or.inl h2
          · exact Or.inr (List.mem_cons_of_mem _ h2)

theorem mem_keys_mapSet (m : Registry) (k a : String) (v : Cleanup)
    (h : a ∈ (mapSet m k v).map Prod.fst) : a = k ∨ a ∈ m.map Prod.fst := by
  rcases List.mem_map.mp h with ⟨p, hp, hfst⟩
  rcases mem_mapSet m k v p hp with h1 | h1
  · left; rw [← hfst, h1]
  · right; exact List.mem_map.mpr ⟨p, h1, hfst⟩

theorem keysNodup_mapSet (m : Registry) (k : String) (v : Cleanup) (h : keysNodup m) :
    keysNodup (mapSet m k v) := by
  induction m with
  | nil => simp [mapSet, keysNodup]
  | cons p rest ih =>
      obtain ⟨k1, w⟩ := p
      unfold keysNodup at h
      simp only [List.map_cons, List.nodup_cons] at h
      by_cases h1 : k1 = k
      · subst h1
        unfold keysNodup
        simpa [mapSet] using h
      · have hset : mapSet ((k1, w) :: rest) k v = (k1, w) :: mapSet rest k v := by
          simp [mapSet, h1]
        unfold keysNodup
        rw [hset]
        simp only [List.map_cons, List.nodup_cons]
        refine ⟨fun hmem => ?_, ih h.2⟩
        rcases mem_keys_mapSet rest k k1 v hmem with h2 | h2
        · exact h1 h2
        · exact h.1 h2

theorem mem_of_mapGet (m : Registry) (k : String) (c : Cleanup)
    (h : mapGet m k = some c) : (k, c) ∈ m := by
  induction m with
  | nil => simp [mapGet] at h
  | cons p rest ih =>
      obtain ⟨k1, w⟩ := p
      by_cases h1 : k1 = k
      · subst h1
        simp [mapGet] at h
        simp [h]
      · simp [mapGet, h1] at h
        exact List.mem_cons_of_mem _ (ih h)

theorem mapGet_eq_none_of_not_mem_keys (m : Registry) (k : String)
    (h : k ∉ m.map Prod.fst) : mapGet m k = none := by
  induction m with
  | nil => rfl
  | cons p rest ih =>
      obtain ⟨k1, w⟩ := p
      simp only [List.map_cons, List.mem_cons] at h
      push_neg at h
      simp [mapGet, Ne.symm h.1, ih h.2]

theorem mapGet_mapDelete_self (m : Registry) (k : String) (h : keysNodup m) :
    mapGet (mapDelete m k) k = none := by
  induction m with
  | nil => rfl
  | cons p rest ih =>
      obtain ⟨k1, w⟩ := p
      unfold keysNodup at h
      simp only [List.map_cons, List.nodup_cons] at h
      by_cases h1 : k1 = k
      · subst h1
        simpa [mapDelete] using mapGet_eq_none_of_not_mem_keys rest k1 h.1
      · simp [mapDelete, h1, mapGet, ih h.2]

theorem mapGet_mapDelete_ne (m : Registry) (k k1 : String) (h : k1 ≠ k) :
    mapGet (mapDelete m k) k1 = mapGet m k1 := by
  induction m with
  | nil => rfl
  | cons p rest ih =>
      obtain ⟨k2, w⟩ := p
      by_cases h2 : k2 = k
      · subst h2; simp [mapDelete, mapGet, Ne.symm h]
      · by_cases h3 : k2 = k1 <;> simp [mapDelete, mapGet, h2, h3, h, ih]

theorem mem_mapSet_nodup (m : Registry) (k : String) (v : Cleanup) (p : String × Cleanup)
    (hnd : keysNodup m) (h : p ∈ mapSet m k v) : p = (k, v) ∨ (p.1 ≠ k ∧ p ∈ m) := by
  induction m with
  | nil => simp [mapSet] at h; simp [h]
  | cons q rest ih =>
      obtain ⟨k1, w⟩ := q
      unfold keysNodup at hnd
      simp only [List.map_cons, List.nodup_cons] at hnd
      by_cases h1 : k1 = k
      · subst h1
        simp [mapSet] at h
        rcases h with h | h
        · exact Or.inl h
        · refine Or.inr ⟨fun hk => ?_, List.mem_cons_of_mem _ h⟩
          exact hnd.1 (List.mem_map.mpr ⟨p, h, hk⟩)
      · simp [mapSet, h1] at h
        rcases h with h | h
        · subst h
          exact Or.inr ⟨h1, List.mem_cons_self _ _⟩
        · rcases ih hnd.2 h with h2 | h2
          · exact Or.inl h2
          · exact Or.inr ⟨h2.1, List.mem_cons_of_mem _ h2.2⟩

/- Lemmas about a single call of the tracker callback. -/

theorem attach_keysNodup (effect : Nat → EffOutcome) (s : TrackerState)
    (node : Option Nat) (nodeId : String) (h : keysNodup s.registry) :
    keysNodup (attach effect s node nodeId).state.registry := by
  cases node with
  | some n =>
      cases heff : effect n with
      | throws e => simpa [attach, heff] using h
      | ret cb =>
          cases cb with
          | some c => simpa [attach, heff] using keysNodup_mapSet s.registry nodeId c h
          | none => simpa [attach, heff] using h
  | none =>
      cases hget : mapGet s.registry nodeId with
      | some c =>
          cases hth : c.throwsExc with
          | some e => simpa [attach, hget, hth] using h
          | none => simpa [attach, hget, hth] using keysNodup_mapDelete s.registry nodeId h
      | none => simpa [attach, hget] using h

theorem attach_registry_mem (effect : Nat → EffOutcome) (s : TrackerState)
    (node : Option Nat) (nodeId : String) (p : String × Cleanup)
    (h : p ∈ (attach effect s node nodeId).state.registry) :
    p ∈ s.registry ∨ ∃ n, effect n = EffOutcome.ret (some (Prod.snd p)) := by
  cases node with
  | some n =>
      cases heff : effect n with
      | throws e => simp [attach, heff] at h; exact Or.inl h
      | ret cb =>
          cases cb with
          | some c =>
              simp [attach, heff] at h
              rcases mem_mapSet s.registry nodeId c p h with h1 | h1
              · exact Or.inr ⟨n, by rw [heff, h1]⟩
              · exact Or.inl h1
          | none => simp [attach, heff] at h; exact Or.inl h
  | none =>
      cases hget : mapGet s.registry nodeId with
      | some c =>
          cases hth : c.throwsExc with
          | some e => simp [attach, hget, hth] at h; exact Or.inl h
          | none =>
              simp [attach, hget, hth] at h
              exact Or.inl (mem_mapDelete s.registry nodeId p h)
      | none => simp [attach, hget] at h; exact Or.inl h

theorem attach_clean_registry (effect : Nat → EffOutcome) (s : TrackerState)
    (node : Option Nat) (nodeId : String)
    (hceff : ∀ n c, effect n = EffOutcome.ret (some c) → c.throwsExc = none)
    (h : ∀ p ∈ s.registry, (Prod.snd p).throwsExc = none) :
    ∀ p ∈ (attach effect s node nodeId).state.registry, (Prod.snd p).throwsExc = none := by
  intro p hp
  rcases attach_registry_mem effect s node nodeId p hp with h1 | ⟨n, h1⟩
  · exact h p h1
  · exact hceff n _ h1

theorem attach_entry_step (effect : Nat → EffOutcome) (s : TrackerState)
    (node : Option Nat) (nodeId key : String)
    (hnd : keysNodup s.registry)
    (hclean : ∀ p ∈ s.registry, (Prod.snd p).throwsExc = none) :
    (mapGet (attach effect s node nodeId).state.registry key).isSome =
      (if isStore effect key (node, nodeId) then true
       else if isDetach key (node, nodeId) then false
       else (mapGet s.registry key).isSome) := by
  cases node with
  | some n =>
      cases heff : effect n with
      | throws e => simp [attach, heff, isStore, isDetach]
      | ret cb =>
          cases cb with
          | some c =>
              by_cases hk : nodeId = key
              · subst hk
                simp [attach, heff, isStore, isDetach, mapGet_mapSet_self]
              · simp [attach, heff, isStore, isDetach, hk,
                  mapGet_mapSet_ne s.registry nodeId key c (Ne.symm hk)]
          | none => simp [attach, heff, isStore, isDetach]
  | none =>
      cases hget : mapGet s.registry nodeId with
      | some c =>
          have hth : c.throwsExc = none :=
            hclean (nodeId, c) (mem_of_mapGet s.registry nodeId c hget)
          by_cases hk : nodeId = key
          · subst hk
            simp [attach, hget, hth, isStore, isDetach,
              mapGet_mapDelete_self s.registry nodeId hnd]
          · simp [attach, hget, hth, isStore, isDetach, hk,
              mapGet_mapDelete_ne s.registry nodeId key (Ne.symm hk)]
      | none =>
          by_cases hk : nodeId = key
          · subst hk; simp [attach, hget, isStore, isDetach]
          · simp [attach, hget, isStore, isDetach, hk]

theorem runCalls_append (effect : Nat → EffOutcome) (l1 l2 : List Call) :
    ∀ s : TrackerState,
      runCalls effect s (l1 ++ l2) = runCalls effect (runCalls effect s l1) l2 := by
  induction l1 with
  | nil => intro s; rfl
  | cons a rest ih =>
      intro s
      obtain ⟨node, nodeId⟩ := a
      simp [runCalls, ih]

/- The registry invariant over whole call sequences. -/

theorem noDetach_cons (key : String) (node : Option Nat) (nodeId : String)
    (rest : List Call) :
    noDetach key ((node, nodeId) :: rest) ↔
      isDetach key (node, nodeId) = false ∧ noDetach key rest := by
  unfold noDetach
  constructor
  · intro h
    exact ⟨h ⟨0, Nat.succ_pos _⟩, fun j => h ⟨j.val + 1, Nat.succ_lt_succ j.isLt⟩⟩
  · rintro ⟨h1, h2⟩ ⟨j, hj⟩
    cases j with
    | zero => exact h1
    | succ jj => exact h2 ⟨jj, Nat.lt_of_succ_lt_succ hj⟩

theorem entryCond_cons (effect : Nat → EffOutcome) (key : String) (node : Option Nat)
    (nodeId : String) (rest : List Call) :
    entryCond effect key ((node, nodeId) :: rest) ↔
      (isStore effect key (node, nodeId) = true ∧ noDetach key rest) ∨
        entryCond effect key rest := by
  unfold entryCond noDetach
  constructor
  · rintro ⟨⟨i, hi⟩, hstore, hafter⟩
    cases i with
    | zero =>
        left
        refine ⟨hstore, fun j => ?_⟩
        exact hafter ⟨j.val + 1, Nat.succ_lt_succ j.isLt⟩ (Nat.succ_pos _)
    | succ ii =>
        right
        refine ⟨⟨ii, Nat.lt_of_succ_lt_succ hi⟩, hstore, fun j hj => ?_⟩
        exact hafter ⟨j.val + 1, Nat.succ_lt_succ j.isLt⟩ (Nat.succ_lt_succ hj)
  · rintro (⟨hstore, hafter⟩ | ⟨⟨i, hi⟩, hstore, hafter⟩)
    · refine ⟨⟨0, Nat.succ_pos _⟩, hstore, ?_⟩
      rintro ⟨j, hj⟩ hlt
      cases j with
      | zero => simp [Fin.lt_def] at hlt
      | succ jj => exact hafter ⟨jj, Nat.lt_of_succ_lt_succ hj⟩
    · refine ⟨⟨i + 1, Nat.succ_lt_succ hi⟩, hstore, ?_⟩
      rintro ⟨j, hj⟩ hlt
      cases j with
      | zero => simp [Fin.lt_def] at hlt
      | succ jj =>
          exact hafter ⟨jj, Nat.lt_of_succ_lt_succ hj⟩ (Nat.lt_of_succ_lt_succ hlt)

theorem runCalls_entry_iff (effect : Nat → EffOutcome) (key : String)
    (hceff : ∀ n c, effect n = EffOutcome.ret (some c) → c.throwsExc = none) :
    ∀ (cs : List Call) (s : TrackerState),
      keysNodup s.registry →
      (∀ p ∈ s.registry, (Prod.snd p).throwsExc = none) →
      ((mapGet (runCalls effect s cs).registry key).isSome = true ↔
        entryCond effect key cs ∨
          ((mapGet s.registry key).isSome = true ∧ noDetach key cs)) := by
  intro cs
  induction cs with
  | nil =>
      intro s hnd hclean
      unfold entryCond noDetach
      simp [runCalls]
  | cons a rest ih =>
      obtain ⟨node, nodeId⟩ := a
      intro s hnd hclean
      have hnd1 := attach_keysNodup effect s node nodeId hnd
      have hclean1 := attach_clean_registry effect s node nodeId hceff hclean
      have hmain := ih (attach effect s node nodeId).state hnd1 hclean1
      have hstep := attach_entry_step effect s node nodeId key hnd hclean
      rw [entryCond_cons, noDetach_cons]
      simp only [runCalls]
      rw [hmain, hstep]
      by_cases hs : isStore effect key (node, nodeId) = true
      · have hd : isDetach key (node, nodeId) = false := by
          rcases node with _ | n
          · simp [isStore] at hs
          · simp [isDetach]
        simp [hs, hd]
        tauto
      · by_cases hd : isDetach key (node, nodeId) = true
        · simp only [Bool.not_eq_true] at hs
          simp [hs, hd]
        · simp only [Bool.not_eq_true] at hs hd
          simp [hs, hd]

/-- C1, counterexample: the invariant as stated fails on the code.  With an
effect that returns a cleanup on node 0 and no callable action on node 1,
running attach(node0, "k") then attach(node1, "k") leaves a registry entry
for "k" even though the effect returned no cleanup at the most recent
attach of a node under "k". -/
theorem claimC1_false_on_code : ¬ claimC1 effMix csC1 "k" := by decide

/-- C1 (amended): at every state reached by a sequence of attach(node, id)
and attach(null, id) calls (with cleanups that return normally), a registry
entry exists for identifier K if and only if some attach of a node under K
at which the effect returned a cleanup action has occurred and no detach
call under K comes after the most recent such attach. -/
theorem registry_entry_iff_store_no_later_detach (effect : Nat → EffOutcome)
    (hceff : ∀ n c, effect n = EffOutcome.ret (some c) → c.throwsExc = none)
    (cs : List Call) (key : String) :
    (mapGet (runCalls effect trackerInit cs).registry key).isSome = true ↔
      ∃ i : Fin cs.length, isStore effect key (cs.get i) = true ∧
        ∀ j : Fin cs.length, i < j → isDetach key (cs.get j) = false := by
  have h := runCalls_entry_iff effect key hceff cs trackerInit
    (by simp [trackerInit, keysNodup]) (by simp [trackerInit])
  rw [h]
  unfold entryCond
  simp [trackerInit, mapGet]

/-- Witness for the amended C1 theorem at a concrete effect and sequence. -/
theorem registry_entry_iff_store_no_later_detach_witness :
    (mapGet (runCalls effStore trackerInit csW1).registry "k").isSome = true := by
  have hc : ∀ n c, effStore n = EffOutcome.ret (some c) → c.throwsExc = none := by
    intro n c h
    simp only [effStore, EffOutcome.ret.injEq, Option.some.injEq] at h
    rw [← h]
    rfl
  exact (registry_entry_iff_store_no_later_detach effStore hc csW1 "k").mpr
    ⟨⟨0, by decide⟩, by decide, by decide⟩

theorem runCalls_keysNodup (effect : Nat → EffOutcome) (cs : List Call) :
    ∀ s : TrackerState, keysNodup s.registry → keysNodup (runCalls effect s cs).registry := by
  induction cs with
  | nil => intro s h; exact h
  | cons a rest ih =>
      obtain ⟨node, nodeId⟩ := a
      intro s h
      exact ih (attach effect s node nodeId).state (attach_keysNodup effect s node nodeId h)

/-- C2: after any sequence of calls ending in attach(node, id) immediately
followed by attach(null, id), the cleanup returned by the effect at that
attach is invoked exactly at that detach (the only two new events are the
effect call and that one cleanup call), the registry entry for id is gone
afterwards, and — when that cleanup closure had never been invoked before —
it has been invoked exactly once over the whole run. -/
theorem cleanup_invoked_once_at_matching_detach (effect : Nat → EffOutcome)
    (cs : List Call) (n : Nat) (nodeId : String) (c : Cleanup)
    (hc : effect n = EffOutcome.ret (some c))
    (hnt : c.throwsExc = none) :
    (runCalls effect trackerInit (cs ++ [(some n, nodeId), (none, nodeId)])).trace =
        (runCalls effect trackerInit cs).trace ++
          [Event.effectCall n, Event.cleanupCall c.label] ∧
      mapGet (runCalls effect trackerInit
          (cs ++ [(some n, nodeId), (none, nodeId)])).registry nodeId = none ∧
      (Event.cleanupCall c.label ∉ (runCalls effect trackerInit cs).trace →
        (runCalls effect trackerInit
            (cs ++ [(some n, nodeId), (none, nodeId)])).trace.count
          (Event.cleanupCall c.label) = 1) := by
  have hnd : keysNodup (runCalls effect trackerInit cs).registry :=
    runCalls_keysNodup effect cs trackerInit (by simp [trackerInit, keysNodup])
  rw [runCalls_append]
  simp only [runCalls, attach, hc, hnt, mapGet_mapSet_self]
  refine ⟨by simp, ?_, ?_⟩
  · exact mapGet_mapDelete_self _ nodeId
      (keysNodup_mapSet (runCalls effect trackerInit cs).registry nodeId c hnd)
  · intro hmem
    rw [List.append_assoc]
    rw [List.count_append]
    rw [List.count_eq_zero.mpr hmem]
    simp

/-- Witness for C2: empty prefix, one attach of node 0 under "k" followed by
the matching detach. -/
theorem cleanup_invoked_once_at_matching_detach_witness :
    (runCalls effStore trackerInit ([] ++ [(some 0, "k"), (none, "k")])).trace =
        (runCalls effStore trackerInit []).trace ++
          [Event.effectCall 0, Event.cleanupCall cNo.label] ∧
      mapGet (runCalls effStore trackerInit
          ([] ++ [(some 0, "k"), (none, "k")])).registry "k" = none ∧
      (runCalls effStore trackerInit
          ([] ++ [(some 0, "k"), (none, "k")])).trace.count
        (Event.cleanupCall cNo.label) = 1 := by
  have h := cleanup_invoked_once_at_matching_detach effStore [] 0 "k" cNo rfl rfl
  exact ⟨h.1, h.2.1, h.2.2 (by simp [runCalls, trackerInit])⟩

/- Freshness of a cleanup label is preserved by every call. -/

theorem attach_labelFree (effect : Nat → EffOutcome) (lab : Nat) (s : TrackerState)
    (node : Option Nat) (nodeId : String)
    (heff : ∀ n c, effect n = EffOutcome.ret (some c) → c.label ≠ lab)
    (h : labelFree lab s) : labelFree lab (attach effect s node nodeId).state := by
  obtain ⟨hreg, htr⟩ := h
  refine ⟨?_, ?_⟩
  · intro p hp
    rcases attach_registry_mem effect s node nodeId p hp with h1 | ⟨n, h1⟩
    · exact hreg p h1
    · exact heff n _ h1
  · cases node with
    | some n =>
        cases heff2 : effect n with
        | throws e => simp [attach, heff2, htr]
        | ret cb =>
            cases cb with
            | some c => simp [attach, heff2, htr]
            | none => simp [attach, heff2, htr]
    | none =>
        cases hget : mapGet s.registry nodeId with
        | some c =>
            have hlabel : c.label ≠ lab :=
              hreg (nodeId, c) (mem_of_mapGet s.registry nodeId c hget)
            cases hth : c.throwsExc with
            | some e => simp [attach, hget, hth, htr, Ne.symm hlabel]
            | none => simp [attach, hget, hth, htr, Ne.symm hlabel]
        | none => simpa [attach, hget] using htr

theorem runCalls_labelFree (effect : Nat → EffOutcome) (lab : Nat)
    (heff : ∀ n c, effect n = EffOutcome.ret (some c) → c.label ≠ lab)
    (cs : List Call) :
    ∀ s : TrackerState, labelFree lab s → labelFree lab (runCalls effect s cs) := by
  induction cs with
  | nil => intro s h; exact h
  | cons a rest ih =>
      obtain ⟨node, nodeId⟩ := a
      intro s h
      exact ih (attach effect s node nodeId).state
        (attach_labelFree effect lab s node nodeId heff h)

/-- C3: overwriting a registered cleanup.  When a cleanup is already stored
under a key and a node is attached under that key with an effect returning
a new callable action, the registry entry is replaced by the new action, no
cleanup runs at the overwrite (the only new event is the effect call), and
— the old closure being fresh to the rest of the world — the old cleanup is
never invoked during any later sequence of calls. -/
theorem overwrite_never_runs_old_cleanup (effect : Nat → EffOutcome) (s : TrackerState)
    (key : String) (n : Nat) (cOld cNew : Cleanup)
    (hnd : keysNodup s.registry)
    (_hold : mapGet s.registry key = some cOld)
    (heff : effect n = EffOutcome.ret (some cNew))
    (hfreshEff : ∀ m c, effect m = EffOutcome.ret (some c) → c.label ≠ cOld.label)
    (hfreshReg : ∀ p ∈ s.registry, Prod.fst p ≠ key → (Prod.snd p).label ≠ cOld.label)
    (hfreshTr : Event.cleanupCall cOld.label ∉ s.trace) :
    mapGet (attach effect s (some n) key).state.registry key = some cNew ∧
      (attach effect s (some n) key).state.trace = s.trace ++ [Event.effectCall n] ∧
      ∀ ds : List Call,
        Event.cleanupCall cOld.label ∉
          (runCalls effect (attach effect s (some n) key).state ds).trace := by
  have hstate : (attach effect s (some n) key).state =
      { registry := mapSet s.registry key cNew,
        trace := s.trace ++ [Event.effectCall n] } := by
    simp [attach, heff]
  have hfree : labelFree cOld.label (attach effect s (some n) key).state := by
    rw [hstate]
    refine ⟨?_, ?_⟩
    · intro p hp
      rcases mem_mapSet_nodup s.registry key cNew p hnd hp with h1 | ⟨h1, h2⟩
      · rw [h1]
        exact hfreshEff n cNew heff
      · exact hfreshReg p h2 h1
    · simp [hfreshTr]
  refine ⟨?_, ?_, ?_⟩
  · rw [hstate]
    exact mapGet_mapSet_self s.registry key cNew
  · rw [hstate]
  · intro ds
    exact (runCalls_labelFree effect cOld.label hfreshEff ds
      (attach effect s (some n) key).state hfree).2

/-- Witness for C3: a registry holding the cleanup labelled 50 under "k",
overwritten by attaching node 0 whose effect returns the cleanup labelled
10, then a detach of "k". -/
theorem overwrite_never_runs_old_cleanup_witness :
    mapGet (attach effStore sOldW (some 0) "k").state.registry "k" = some cNo ∧
      (attach effStore sOldW (some 0) "k").state.trace = [Event.effectCall 0] ∧
      Event.cleanupCall cOldW.label ∉
        (runCalls effStore (attach effStore sOldW (some 0) "k").state
          [(none, "k")]).trace := by
  have hfreshEff : ∀ m c, effStore m = EffOutcome.ret (some c) → c.label ≠ cOldW.label := by
    intro m c h
    simp only [effStore, EffOutcome.ret.injEq, Option.some.injEq] at h
    rw [← h]
    decide
  have h := overwrite_never_runs_old_cleanup effStore sOldW "k" 0 cOldW cNo
    (by decide) (by decide) rfl hfreshEff (by decide) (by simp [sOldW])
  refine ⟨h.1, ?_, h.2.2 [(none, "k")]⟩
  have h2 := h.2.1
  simpa [sOldW] using h2

/-- C4: detaching an identifier with no registry entry (including one never
attached) is a silent no-op: no effect or cleanup is invoked (the trace is
unchanged), the registry is unchanged, and no exception is raised. -/
theorem detach_unknown_id_noop (effect : Nat → EffOutcome) (s : TrackerState)
    (nodeId : String) (h : mapGet s.registry nodeId = none) :
    attach effect s none nodeId = { state := s, exc := none } := by
  simp [attach, h]

/-- Witness for C4: detaching "k" on a freshly constructed tracker. -/
theorem detach_unknown_id_noop_witness :
    attach effStore trackerInit none "k" = { state := trackerInit, exc := none } :=
  detach_unknown_id_noop effStore trackerInit "k" rfl

/-- C5: with the identifier omitted, every call uses the sentinel "single":
omitting the identifier is definitionally the same call as passing
"single" explicitly, and attach(nodeA) followed by attach(null) invokes
exactly the cleanup the effect returned for nodeA, then clears the
sentinel entry. -/
theorem single_mode_default_sentinel (effect : Nat → EffOutcome) (s : TrackerState)
    (nA : Nat) (c : Cleanup)
    (hnd : keysNodup s.registry)
    (hc : effect nA = EffOutcome.ret (some c))
    (hnt : c.throwsExc = none) :
    attach effect s (some nA) = attach effect s (some nA) "single" ∧
      attach effect (attach effect s (some nA)).state none =
        attach effect (attach effect s (some nA)).state none "single" ∧
      (attach effect (attach effect s (some nA)).state none).state.trace =
        s.trace ++ [Event.effectCall nA, Event.cleanupCall c.label] ∧
      mapGet (attach effect (attach effect s (some nA)).state none).state.registry
        "single" = none := by
  have hstate : (attach effect s (some nA)).state =
      { registry := mapSet s.registry "single" c,
        trace := s.trace ++ [Event.effectCall nA] } := by
    simp [attach, hc]
  refine ⟨rfl, rfl, ?_, ?_⟩
  · rw [hstate]
    simp [attach, mapGet_mapSet_self, hnt]
  · rw [hstate]
    simp [attach, mapGet_mapSet_self, hnt,
      mapGet_mapDelete_self _ _ (keysNodup_mapSet s.registry "single" c hnd)]

/-- Witness for C5 on a freshly constructed tracker and node 0. -/
theorem single_mode_default_sentinel_witness :
    attach effStore trackerInit (some 0) = attach effStore trackerInit (some 0) "single" ∧
      attach effStore (attach effStore trackerInit (some 0)).state none =
        attach effStore (attach effStore trackerInit (some 0)).state none "single" ∧
      (attach effStore (attach effStore trackerInit (some 0)).state none).state.trace =
        trackerInit.trace ++ [Event.effectCall 0, Event.cleanupCall cNo.label] ∧
      mapGet (attach effStore
          (attach effStore trackerInit (some 0)).state none).state.registry
        "single" = none :=
  single_mode_default_sentinel effStore trackerInit 0 cNo (by decide) rfl rfl

/-- C7: exceptions raised by the caller-supplied effect or by a stored
cleanup propagate to the host unchanged — the tracker neither catches nor
wraps them and performs no retry (exactly one invocation happens). -/
theorem exceptions_propagate_unchanged (effect : Nat → EffOutcome) (s : TrackerState)
    (nodeId : String) :
    (∀ n e, effect n = EffOutcome.throws e →
        (attach effect s (some n) nodeId).exc = some e ∧
          (attach effect s (some n) nodeId).state.trace =
            s.trace ++ [Event.effectCall n]) ∧
      (∀ c e, mapGet s.registry nodeId = some c → c.throwsExc = some e →
        (attach effect s none nodeId).exc = some e ∧
          (attach effect s none nodeId).state.trace =
            s.trace ++ [Event.cleanupCall c.label]) := by
  constructor
  · intro n e h
    constructor <;> simp [attach, h]
  · intro c e hget hth
    constructor <;> simp [attach, hget, hth]

/-- Witness for C7: a throwing effect and a stored throwing cleanup. -/
theorem exceptions_propagate_unchanged_witness :
    ((attach effRaise sBoomW (some 0) "k").exc = some 5 ∧
        (attach effRaise sBoomW (some 0) "k").state.trace =
          sBoomW.trace ++ [Event.effectCall 0]) ∧
      ((attach effRaise sBoomW none "k").exc = some 7 ∧
        (attach effRaise sBoomW none "k").state.trace =
          sBoomW.trace ++ [Event.cleanupCall cBoom.label]) := by
  have h := exceptions_propagate_unchanged effRaise sBoomW "k"
  exact ⟨h.1 0 5 rfl, h.2 cBoom 7 (by decide) rfl⟩

/-- C8: when a cleanup is registered under a key and a node is attached
under that key with an effect returning no callable action, the old entry
stays in place, and the next detach under the key invokes that older
cleanup (produced by an earlier attach, not by the most recent one) and
removes the entry. -/
theorem stale_cleanup_runs_at_next_detach (effect : Nat → EffOutcome) (s : TrackerState)
    (key : String) (n : Nat) (c : Cleanup)
    (hnd : keysNodup s.registry)
    (hold : mapGet s.registry key = some c)
    (hnt : c.throwsExc = none)
    (heff : effect n = EffOutcome.ret none) :
    (attach effect s (some n) key).state.registry = s.registry ∧
      mapGet (attach effect s (some n) key).state.registry key = some c ∧
      (attach effect (attach effect s (some n) key).state none key).state.trace =
        s.trace ++ [Event.effectCall n, Event.cleanupCall c.label] ∧
      mapGet (attach effect
          (attach effect s (some n) key).state none key).state.registry key = none := by
  have hstate : (attach effect s (some n) key).state =
      { registry := s.registry, trace := s.trace ++ [Event.effectCall n] } := by
    simp [attach, heff]
  refine ⟨by rw [hstate], by rw [hstate]; exact hold, ?_, ?_⟩
  · rw [hstate]
    simp [attach, hold, hnt]
  · rw [hstate]
    simp [attach, hold, hnt, mapGet_mapDelete_self s.registry key hnd]

/-- Witness for C8: cleanup labelled 50 registered under "k", re-attach of
node 0 whose effect returns nothing, then detach of "k". -/
theorem stale_cleanup_runs_at_next_detach_witness :
    (attach effVoid sOldW (some 0) "k").state.registry = sOldW.registry ∧
      mapGet (attach effVoid sOldW (some 0) "k").state.registry "k" = some cOldW ∧
      (attach effVoid (attach effVoid sOldW (some 0) "k").state none "k").state.trace =
        sOldW.trace ++ [Event.effectCall 0, Event.cleanupCall cOldW.label] ∧
      mapGet (attach effVoid
          (attach effVoid sOldW (some 0) "k").state none "k").state.registry "k" = none :=
  stale_cleanup_runs_at_next_detach effVoid sOldW "k" 0 cOldW (by decide) (by decide)
    rfl rfl

/-- C9: attach is atomic with respect to effect failure — when the effect
raises, the registry is exactly as before the call (the effect runs before
any registry write), and the exception is propagated. -/
theorem effect_throw_leaves_registry_unchanged (effect : Nat → EffOutcome)
    (s : TrackerState) (n : Nat) (nodeId : String) (e : Nat)
    (h : effect n = EffOutcome.throws e) :
    (attach effect s (some n) nodeId).state.registry = s.registry ∧
      (attach effect s (some n) nodeId).exc = some e := by
  constructor <;> simp [attach, h]

/-- Witness for C9: an effect raising exception 5 on a fresh tracker. -/
theorem effect_throw_leaves_registry_unchanged_witness :
    (attach effRaise trackerInit (some 0) "k").state.registry = trackerInit.registry ∧
      (attach effRaise trackerInit (some 0) "k").exc = some 5 :=
  effect_throw_leaves_registry_unchanged effRaise trackerInit 0 "k" 5 rfl

/-- C10: detach is not atomic with respect to cleanup failure — when the
stored cleanup raises, the entry is not removed (the cleanup runs before
the delete, which is skipped), so a later detach under the same identifier
invokes the very same cleanup again and raises again. -/
theorem cleanup_throw_keeps_entry (effect : Nat → EffOutcome) (s : TrackerState)
    (nodeId : String) (c : Cleanup) (e : Nat)
    (hold : mapGet s.registry nodeId = some c)
    (hth : c.throwsExc = some e) :
    (attach effect s none nodeId).exc = some e ∧
      (attach effect s none nodeId).state.registry = s.registry ∧
      (attach effect s none nodeId).state.trace =
        s.trace ++ [Event.cleanupCall c.label] ∧
      (attach effect (attach effect s none nodeId).state none nodeId).state.trace =
        s.trace ++ [Event.cleanupCall c.label, Event.cleanupCall c.label] ∧
      (attach effect (attach effect s none nodeId).state none nodeId).exc = some e := by
  have hstate : (attach effect s none nodeId).state =
      { registry := s.registry, trace := s.trace ++ [Event.cleanupCall c.label] } := by
    simp [attach, hold, hth]
  refine ⟨by simp [attach, hold, hth], by rw [hstate], by rw [hstate], ?_, ?_⟩
  · rw [hstate]
    simp [attach, hold, hth]
  · rw [hstate]
    simp [attach, hold, hth]

/-- Witness for C10: the throwing cleanup labelled 11 stored under "k",
detached twice. -/
theorem cleanup_throw_keeps_entry_witness :
    (attach effVoid sBoomW none "k").exc = some 7 ∧
      (attach effVoid sBoomW none "k").state.registry = sBoomW.registry ∧
      (attach effVoid sBoomW none "k").state.trace =
        sBoomW.trace ++ [Event.cleanupCall cBoom.label] ∧
      (attach effVoid (attach effVoid sBoomW none "k").state none "k").state.trace =
        sBoomW.trace ++ [Event.cleanupCall cBoom.label, Event.cleanupCall cBoom.label] ∧
      (attach effVoid (attach effVoid sBoomW none "k").state none "k").exc = some 7 :=
  cleanup_throw_keeps_entry effVoid sBoomW "k" cBoom 7 (by decide) rfl

/-- C6: across two renders of the same tracker, the callback identity is
recreated exactly when the attachment effect reference or some element of
the dependency list differs from the previous render (per-element identity
comparison at equal length, per the host convention), and the previous
identity (indeed the whole memo cell) is reused when both are unchanged. -/
theorem callback_identity_recreated_iff_deps_change (prev : MemoCell)
    (effPrev effNew : Dep) (depsPrev depsNew : List Dep) (freshId : Nat)
    (hprev : prev.deps = useRefCallbackDeps effPrev depsPrev)
    (hlen : depsNew.length = depsPrev.length)
    (hfresh : freshId ≠ prev.cbId) :
    ((useCallbackRender prev (useRefCallbackDeps effNew depsNew) freshId).cbId ≠
        prev.cbId ↔
      (effNew ≠ effPrev ∨
        ∃ i : Nat, ∃ h1 : i < depsNew.length, ∃ h2 : i < depsPrev.length,
          depsNew.get ⟨i, h1⟩ ≠ depsPrev.get ⟨i, h2⟩)) ∧
      ∀ _heq : effNew = effPrev ∧ depsNew = depsPrev,
        useCallbackRender prev (useRefCallbackDeps effNew depsNew) freshId = prev := by
  have hreuse : ∀ _heq : effNew = effPrev ∧ depsNew = depsPrev,
      useCallbackRender prev (useRefCallbackDeps effNew depsNew) freshId = prev := by
    rintro ⟨he, hd⟩
    unfold useCallbackRender depsEqual
    rw [hprev, he, hd]
    simp
  refine ⟨?_, hreuse⟩
  by_cases hsame : (effPrev : Dep) = effNew ∧ depsPrev = depsNew
  · obtain ⟨he, hd⟩ := hsame
    subst he
    subst hd
    rw [hreuse ⟨rfl, rfl⟩]
    simp only [ne_eq, not_true_eq_false, false_iff, not_or]
    refine ⟨by simp, ?_⟩
    rintro ⟨i, h1, h2, hi⟩
    exact hi
  · have hne : prev.deps ≠ useRefCallbackDeps effNew depsNew := by
      rw [hprev]
      unfold useRefCallbackDeps
      intro hcons
      rw [List.cons.injEq] at hcons
      exact hsame hcons
    have hres : useCallbackRender prev (useRefCallbackDeps effNew depsNew) freshId =
        { deps := useRefCallbackDeps effNew depsNew, cbId := freshId } := by
      unfold useCallbackRender depsEqual
      simp [hne]
    rw [hres]
    simp only [ne_eq, hfresh, not_false_eq_true, true_iff]
    by_cases he : effNew = effPrev
    · right
      have hd : depsNew ≠ depsPrev := by
        intro hdd
        exact hsame ⟨he.symm, hdd.symm⟩
      by_contra hnone
      push_neg at hnone
      exact hd (List.ext_get hlen hnone)
    · exact Or.inl he

/-- Witness for C6: previous deps [1, 2] (effect 1, dependency [2]), new
effect 3 with the same dependency list — a new callback identity must be
handed out. -/
theorem callback_identity_recreated_iff_deps_change_witness :
    (useCallbackRender mcPrev (useRefCallbackDeps 3 [2]) 1).cbId ≠ mcPrev.cbId :=
  (callback_identity_recreated_iff_deps_change mcPrev 1 3 [2] [2] 1 rfl rfl
    (by decide)).1.mpr (Or.inl (by decide))
